import Mathlib

/-!
Verification of the catalog-engine logic of the `katalogi` repository
(`src/src/App.jsx`, plus the earlier iteration in `src/unnamed/part_000`).

The pure core consists of:
* `generateCodeForCategory` (App.jsx line 128 and its identical copy at
  lines 504-508): category prefix + zero-padded per-category count;
* the search filter over `products` (App.jsx lines 155-163 / 254 / 640-644);
* the category grouping (App.jsx lines 165-167 / 256 / 647-653) and the
  display step that skips empty buckets (lines 219 / 266 / 674);
* `formatPrice` (App.jsx line 99, using the `id-ID` locale);
* `normalizeAffiliate` (App.jsx line 100);
* the save payload's category field `form.category || 'Other'`
  (App.jsx line 141).

JavaScript strings are modelled as Lean `String`; nullable values as
`Option`.  The JS string primitives used by the source (`includes`,
`startsWith`, `trim`, `toLowerCase`, `toUpperCase`, `substring(0,3)`,
`padStart(3,'0')`) are re-implemented below on `List Char` so that every
definition is executable and kernel-reducible.  JS case mapping is modelled
per-character (`Char.toLower`/`Char.toUpper`), which agrees with JS on the
ASCII data this application handles.
-/

namespace Katalogi

/-- `startsWithList l pre` is JS `l.startsWith(pre)` on character lists. -/
def startsWithList : List Char → List Char → Bool
  | _, [] => true
  | [], _ :: _ => false
  | a :: as, b :: bs => a == b && startsWithList as bs

/-- `containsList sub l` is JS `l.includes(sub)` on character lists. -/
def containsList (sub : List Char) : List Char → Bool
  | [] => startsWithList [] sub
  | a :: as => startsWithList (a :: as) sub || containsList sub as

/-- JS `s.includes(sub)`. -/
def jsIncludes (s sub : String) : Bool := containsList sub.data s.data

/-- JS `s.startsWith(pre)`. -/
def jsStartsWith (s pre : String) : Bool := startsWithList s.data pre.data

/-- The JS whitespace set stripped by `String.prototype.trim`. -/
def jsIsWhitespace (c : Char) : Bool :=
  c == ' ' || c == '\t' || c == '\n' || c == '\r' || c == '\x0b' || c == '\x0c' ||
  c == '\u00A0' || c == '\u1680' ||
  (decide ('\u2000' ≤ c) && decide (c ≤ '\u200A')) ||
  c == '\u2028' || c == '\u2029' || c == '\u202F' || c == '\u205F' ||
  c == '\u3000' || c == '\uFEFF'

/-- JS `s.trim()`: drop whitespace from both ends. -/
def jsTrim (s : String) : String :=
  ⟨((s.data.dropWhile jsIsWhitespace).reverse.dropWhile jsIsWhitespace).reverse⟩

/-- JS `s.toLowerCase()` (per-character; exact on ASCII). -/
def jsToLower (s : String) : String := ⟨s.data.map Char.toLower⟩

/-- JS `s.toUpperCase()` (per-character; exact on ASCII). -/
def jsToUpper (s : String) : String := ⟨s.data.map Char.toUpper⟩

/-- JS `s.substring(0, 3)`. -/
def jsSubstring3 (s : String) : String := ⟨s.data.take 3⟩

/-- JS `s.padStart(3, '0')`. -/
def jsPadStart3 (s : String) : String :=
  if 3 ≤ s.length then s else ⟨List.replicate (3 - s.length) '0' ++ s.data⟩

/-- A product row as used by the pure catalog logic.  `name`, `code` and the
brand display name (`p.brands?.name` in the relation variant, `p.brand` in the
flat variant) and `category` are nullable text columns, hence `Option`. -/
structure Product where
  name : Option String
  brandName : Option String
  code : Option String
  category : Option String
  deriving DecidableEq

/-- JS `x || ''` on a nullable string (both `null` and `''` give `''`). -/
def orEmpty (o : Option String) : String := o.getD ""

/-- JS `cat || 'OTH'`: `null`, `undefined` and `''` fall back to `'OTH'`. -/
def jsOrOTH (cat : Option String) : String :=
  match cat with
  | none => "OTH"
  | some s => if s = "" then "OTH" else s

/-- `generateCodeForCategory` from App.jsx line 128 (identical copy at lines
504-508):
`const prefix = (cat||'OTH').substring(0,3).toUpperCase();`
`const count = products.filter(p=>p.category===cat).length;`
`return prefix + String(count+1).padStart(3,'0');`
(`p.category === cat` is `Option` equality: JS `null === null` is `true`). -/
def generateCodeForCategory (cat : Option String) (products : List Product) : String :=
  let pfx := jsToUpper (jsSubstring3 (jsOrOTH cat))
  let count := (products.filter (fun p => p.category == cat)).length
  pfx ++ jsPadStart3 (toString (count + 1))

/-- Spec-side restatement of the code-generation contract, written from the
spec's words (§4.1 / §8): the upper-cased first three characters of the
category (or `"OTH"` when the category is empty/unset), followed by the count
of products whose category field equals the input exactly, plus one,
zero-padded to three digits. -/
def specGenerateCode (cat : Option String) (products : List Product) : String :=
  let catStr := orEmpty cat
  let pfx : String := if catStr = "" then "OTH" else ⟨(jsToUpper catStr).data.take 3⟩
  let n := (products.filter (fun p => p.category == cat)).length + 1
  pfx ++ ⟨List.replicate (3 - (toString n).length) '0' ++ (toString n).data⟩

theorem jsPadStart3_eq (s : String) :
    jsPadStart3 s = ⟨List.replicate (3 - s.length) '0' ++ s.data⟩ := by
  unfold jsPadStart3
  split
  · next h => rw [Nat.sub_eq_zero_of_le h]; simp
  · rfl

theorem startsWithList_append (l1 l2 : List Char) :
    startsWithList (l1 ++ l2) l1 = true := by
  induction l1 with
  | nil => simp [startsWithList]
  | cons a as ih => simp [startsWithList, ih]

theorem containsList_nil (l : List Char) : containsList [] l = true := by
  cases l <;> simp [containsList, startsWithList]

/-- C1: For every category and product list, the generated code is the
upper-cased first-three-character category prefix (`"OTH"` for empty/unset
categories) concatenated with the per-category count plus one, zero-padded to
three digits — i.e. `generateCodeForCategory` agrees with the spec-side
contract `specGenerateCode`. -/
theorem generateCode_matches_spec (cat : Option String) (products : List Product) :
    generateCodeForCategory cat products = specGenerateCode cat products := by
  unfold generateCodeForCategory specGenerateCode
  cases cat with
  | none =>
      simp [jsOrOTH, orEmpty, jsPadStart3_eq]
      rfl
  | some s =>
      by_cases hs : s = ""
      · subst hs
        simp [jsOrOTH, orEmpty, jsPadStart3_eq]
        rfl
      · simp [jsOrOTH, orEmpty, hs, jsPadStart3_eq]
        have hp : jsToUpper (jsSubstring3 s) = (⟨(jsToUpper s).data.take 3⟩ : String) := by
          unfold jsToUpper jsSubstring3
          exact congrArg String.mk (List.map_take Char.toUpper s.data 3)
        rw [hp]

theorem jsPadStart3_length (s : String) : 3 ≤ (jsPadStart3 s).length := by
  unfold jsPadStart3
  split
  · assumption
  · next h =>
    show 3 ≤ (List.replicate (3 - s.length) '0' ++ s.data).length
    simp [List.length_append, List.length_replicate]
    omega

/-- C2: Code generation is total — it returns a nonempty code for every
category input, including `null`/`undefined` (`none`) and the empty string —
and for empty/unset input the code starts with the default prefix `"OTH"`. -/
theorem generateCode_total_and_OTH_default (cat : Option String) (products : List Product) :
    generateCodeForCategory cat products ≠ "" ∧
    ((cat = none ∨ cat = some "") →
      jsStartsWith (generateCodeForCategory cat products) "OTH" = true) := by
  constructor
  · intro h
    have hlen : 3 ≤ (generateCodeForCategory cat products).length := by
      unfold generateCodeForCategory
      rw [String.length_append]
      have := jsPadStart3_length (toString ((products.filter (fun p => p.category == cat)).length + 1))
      omega
    rw [h] at hlen
    simp at hlen
  · intro h
    have hoth : jsOrOTH cat = "OTH" := by
      rcases h with h | h <;> simp [h, jsOrOTH]
    unfold generateCodeForCategory
    rw [hoth]
    show startsWithList (jsToUpper (jsSubstring3 "OTH") ++ _).data "OTH".data = true
    have hpfx : jsToUpper (jsSubstring3 "OTH") = "OTH" := by decide
    rw [hpfx, String.data_append]
    exact startsWithList_append _ _

theorem generateCode_total_and_OTH_default_witness :
    generateCodeForCategory none [] ≠ "" ∧
    jsStartsWith (generateCodeForCategory none []) "OTH" = true :=
  ⟨(generateCode_total_and_OTH_default none []).1,
   (generateCode_total_and_OTH_default none []).2 (Or.inl rfl)⟩

/-- The search predicate of `Dashboard.filtered` (App.jsx lines 155-163) and
`Catalog.filtered` (line 254 / lines 640-644):
`const q = search.trim().toLowerCase(); if (!q) return true;`
`return (p.name||'').toLowerCase().includes(q) ||`
`       (p.brands?.name||'').toLowerCase().includes(q) ||`
`       (p.code||'').toLowerCase().includes(q);` -/
def matchesQuery (p : Product) (search : String) : Bool :=
  let q := jsToLower (jsTrim search)
  if q = "" then true
  else
    jsIncludes (jsToLower (orEmpty p.name)) q ||
    jsIncludes (jsToLower (orEmpty p.brandName)) q ||
    jsIncludes (jsToLower (orEmpty p.code)) q

/-- `products.filter(p => ...)` — the search filter of Dashboard and Catalog. -/
def filterProducts (products : List Product) (search : String) : List Product :=
  products.filter (fun p => matchesQuery p search)

theorem jsTrim_eq_empty_of_whitespace (q : String)
    (h : ∀ c ∈ q.data, jsIsWhitespace c = true) : jsTrim q = "" := by
  unfold jsTrim
  rw [List.dropWhile_eq_nil_iff.mpr h]
  rfl

/-- C3: An empty or whitespace-only query leaves the product list unchanged,
in its original order. -/
theorem filter_whitespace_identity (P : List Product) (q : String)
    (h : ∀ c ∈ q.data, jsIsWhitespace c = true) : filterProducts P q = P := by
  unfold filterProducts
  apply List.filter_eq_self.mpr
  intro p _
  unfold matchesQuery
  rw [jsTrim_eq_empty_of_whitespace q h]
  rfl

/-- A concrete product used by witnesses and counterexamples. -/
def sampleP : Product := ⟨some "x", some "z", some "y", some "Shirts"⟩

theorem filter_whitespace_identity_witness :
    (∀ c ∈ (" " : String).data, jsIsWhitespace c = true) ∧
    filterProducts [sampleP] " " = [sampleP] :=
  ⟨by decide, filter_whitespace_identity [sampleP] " " (by decide)⟩

/-- Spec-side reading of "`field` contains `q` as a case-insensitive
substring". -/
def specContainsCI (field q : String) : Bool :=
  jsIncludes (jsToLower field) (jsToLower q)

/-- C4 counterexample: for the one-space query `" "` the filter keeps
`sampleP` (the trimmed query is empty, so the filter keeps everything), yet
none of `sampleP`'s name, brand name or code contains `" "` case-insensitively.
So "at least one field contains q" is false for the raw query. -/
theorem filter_substring_counterexample :
    sampleP ∈ filterProducts [sampleP] " " ∧
    specContainsCI (orEmpty sampleP.name) " " = false ∧
    specContainsCI (orEmpty sampleP.brandName) " " = false ∧
    specContainsCI (orEmpty sampleP.code) " " = false := by
  decide

/-- C4 (amended): every product kept by the filter has its name, brand display
name, or code containing the whitespace-trimmed query as a case-insensitive
substring (trivially so when the trimmed query is empty). -/
theorem filter_matches_trimmed_query (P : List Product) (q : String) (p : Product)
    (h : p ∈ filterProducts P q) :
    specContainsCI (orEmpty p.name) (jsTrim q) = true ∨
    specContainsCI (orEmpty p.brandName) (jsTrim q) = true ∨
    specContainsCI (orEmpty p.code) (jsTrim q) = true := by
  have hm : matchesQuery p q = true := (List.mem_filter.mp h).2
  unfold matchesQuery at hm
  unfold specContainsCI
  by_cases hq : jsToLower (jsTrim q) = ""
  · left
    unfold jsIncludes
    rw [hq]
    exact containsList_nil _
  · rw [if_neg hq] at hm
    rcases Bool.or_eq_true_iff.mp hm with hm | hm
    · rcases Bool.or_eq_true_iff.mp hm with hm | hm
      · exact Or.inl hm
      · exact Or.inr (Or.inl hm)
    · exact Or.inr (Or.inr hm)

/-- A product matching the query `" tee "` after trimming. -/
def sampleTee : Product := ⟨some "Red Tee", some "BrandZ", some "TSH001", some "T-Shirts"⟩

theorem filter_matches_trimmed_query_witness :
    sampleTee ∈ filterProducts [sampleTee] " tee " ∧
    (specContainsCI (orEmpty sampleTee.name) (jsTrim " tee ") = true ∨
     specContainsCI (orEmpty sampleTee.brandName) (jsTrim " tee ") = true ∨
     specContainsCI (orEmpty sampleTee.code) (jsTrim " tee ") = true) :=
  ⟨by decide, filter_matches_trimmed_query [sampleTee] " tee " sampleTee (by decide)⟩

/-- The fixed category taxonomy (`categories` / `categoriesOrder` in the
source). -/
def categoriesOrder : List String :=
  ["Shirts", "T-Shirts", "Jackets", "Pants", "Accessories", "Shoes", "Bags"]

/-- The display bucket of a product:
`const cat = categoriesOrder.includes(p.category) ? p.category : 'Other';`
(JS `includes(null)` is `false`, so a `null` category is bucketed "Other"). -/
def bucketOf (p : Product) : String :=
  match p.category with
  | some c => if c ∈ categoriesOrder then c else "Other"
  | none => "Other"

/-- The key sequence of the `grouped` object.  JS object keys iterate in
insertion order: all seven fixed categories are pre-created
(`categoriesOrder.forEach(cat => grouped[cat]=[])`), and the `'Other'` key is
created lazily (`if (!grouped[cat]) grouped[cat]=[]`) when the first product
bucketed "Other" is pushed. -/
def groupedKeys (ps : List Product) : List String :=
  categoriesOrder ++ (if ps.any (fun p => bucketOf p == "Other") then ["Other"] else [])

/-- The `grouped` object (App.jsx lines 165-167 / 256 / 647-653) as an ordered
association list: each key paired with the products pushed into its bucket, in
input order. -/
def grouped (ps : List Product) : List (String × List Product) :=
  (groupedKeys ps).map (fun k => (k, ps.filter (fun p => bucketOf p == k)))

/-- The presented grouping: the render loop skips empty buckets
(`if (!items || items.length===0) return null;`, App.jsx lines 219 / 266). -/
def presentedGrouped (ps : List Product) : List (String × List Product) :=
  (grouped ps).filter (fun kv => !kv.2.isEmpty)

theorem filter_or_of_disjoint {α : Type} (l : List α) (p q : α → Bool)
    (hd : ∀ a, p a = true → q a = false) :
    (l.filter p ++ l.filter q).Perm (l.filter (fun a => p a || q a)) := by
  induction l with
  | nil => simp
  | cons a t ih =>
    cases hp : p a with
    | true =>
      have hq := hd a hp
      simp only [List.filter_cons, hp, hq, Bool.true_or, if_pos, List.cons_append]
      exact ih.cons a
    | false =>
      cases hq : q a with
      | true =>
        simp only [List.filter_cons, hp, hq, Bool.false_or, if_pos]
        exact List.perm_middle.trans (ih.cons a)
      | false =>
        simpa only [List.filter_cons, hp, hq, Bool.false_or, if_neg] using ih

theorem join_filter_buckets (keys : List String) (l : List Product)
    (hnd : keys.Nodup) :
    ((keys.map (fun k => l.filter (fun p => bucketOf p == k))).flatten).Perm
      (l.filter (fun p => decide (bucketOf p ∈ keys))) := by
  induction keys with
  | nil => simp
  | cons k ks ih =>
    have hk : k ∉ ks := (List.nodup_cons.mp hnd).1
    have ihks := ih (List.nodup_cons.mp hnd).2
    simp only [List.map_cons, List.flatten_cons]
    refine ((ihks.append_left _).trans ?_)
    refine (filter_or_of_disjoint l (fun p => bucketOf p == k)
      (fun p => decide (bucketOf p ∈ ks)) ?_).trans ?_
    · intro a ha
      have : bucketOf a = k := by simpa using ha
      simp [this, hk]
    · have hcong : ∀ a ∈ l,
          ((bucketOf a == k) || decide (bucketOf a ∈ ks)) =
            decide (bucketOf a ∈ k :: ks) := by
        intro a _
        by_cases h1 : bucketOf a = k <;> by_cases h2 : bucketOf a ∈ ks <;>
          simp [h1, h2]
      rw [List.filter_congr hcong]

theorem groupedKeys_nodup (ps : List Product) : (groupedKeys ps).Nodup := by
  unfold groupedKeys
  split <;> decide

theorem bucketOf_mem_groupedKeys (ps : List Product) (p : Product) (hp : p ∈ ps) :
    bucketOf p ∈ groupedKeys ps := by
  unfold groupedKeys
  by_cases hb : bucketOf p ∈ categoriesOrder
  · exact List.mem_append_left _ hb
  · have hother : bucketOf p = "Other" := by
      cases hc : p.category with
      | none => simp [bucketOf, hc]
      | some c =>
        by_cases h : c ∈ categoriesOrder
        · exact absurd (by simp [bucketOf, hc, h] : bucketOf p ∈ categoriesOrder) hb
        · simp [bucketOf, hc, h]
    have hany : ps.any (fun x => bucketOf x == "Other") = true :=
      List.any_eq_true.mpr ⟨p, hp, by rw [hother]; rfl⟩
    rw [if_pos hany, hother]
    exact List.mem_append_right _ (by simp)

theorem grouped_join_perm (ps : List Product) :
    (((grouped ps).map Prod.snd).flatten).Perm ps := by
  unfold grouped
  rw [List.map_map]
  have h1 := join_filter_buckets (groupedKeys ps) ps (groupedKeys_nodup ps)
  have h2 : ps.filter (fun p => decide (bucketOf p ∈ groupedKeys ps)) = ps :=
    List.filter_eq_self.mpr (fun p hp =>
      decide_eq_true (bucketOf_mem_groupedKeys ps p hp))
  rw [h2] at h1
  exact h1

theorem presented_join (l : List (String × List Product)) :
    ((l.filter (fun kv => !kv.2.isEmpty)).map Prod.snd).flatten =
      (l.map Prod.snd).flatten := by
  induction l with
  | nil => rfl
  | cons kv t ih =>
    rcases kv with ⟨k, v⟩
    cases v with
    | nil => simpa using ih
    | cons a as => simpa using ih

/-- C5: The presented grouping has no empty bucket, and the concatenation of
all presented buckets is a permutation of the filtered input list — every
filtered product lands in exactly one bucket, nothing is duplicated or
dropped. -/
theorem grouped_no_empty_and_partition (P : List Product) (q : String) :
    (∀ kv ∈ presentedGrouped (filterProducts P q), kv.2 ≠ []) ∧
    (((presentedGrouped (filterProducts P q)).map Prod.snd).flatten).Perm
      (filterProducts P q) := by
  constructor
  · intro kv hkv
    have h := (List.mem_filter.mp hkv).2
    intro hnil
    rw [hnil] at h
    simp at h
  · unfold presentedGrouped
    rw [presented_join (grouped (filterProducts P q))]
    exact grouped_join_perm (filterProducts P q)

theorem grouped_no_empty_and_partition_witness :
    ("Shirts", [sampleP]) ∈ presentedGrouped (filterProducts [sampleP] "") ∧
    ([sampleP] : List Product) ≠ [] :=
  ⟨by decide,
   (grouped_no_empty_and_partition [sampleP] "").1 ("Shirts", [sampleP]) (by decide)⟩

theorem grouped_bucket_eq_filter (ps : List Product) (k : String)
    (items : List Product) (h : (k, items) ∈ grouped ps) :
    items = ps.filter (fun p => bucketOf p == k) := by
  unfold grouped at h
  obtain ⟨a, _, heq⟩ := List.mem_map.mp h
  have h2 := congrArg Prod.snd heq
  have h1 := congrArg Prod.fst heq
  simp at h1 h2
  rw [← h2, h1]

/-- C6: Every bucket of the grouping is a sublist of the input list — within
each category bucket the products keep the relative order they had in the
input. -/
theorem grouped_buckets_order_preserved (ps : List Product) (k : String)
    (items : List Product) (h : (k, items) ∈ grouped ps) : items.Sublist ps := by
  rw [grouped_bucket_eq_filter ps k items h]
  exact List.filter_sublist ps

theorem grouped_buckets_order_preserved_witness :
    List.Sublist [sampleP] [sampleP] :=
  grouped_buckets_order_preserved [sampleP] "Shirts" [sampleP] (by decide)

/-- The category field of the save payload (App.jsx line 141):
`category: form.category || 'Other'` — a falsy (null/undefined/empty)
category is stored as `'Other'`; any other string passes through. -/
def savedCategory (c : Option String) : String :=
  match c with
  | none => "Other"
  | some s => if s = "" then "Other" else s

/-- C7 counterexample: the save path does rewrite a stored category — an
empty-string category is saved as `"Other"`, not kept as `""`. -/
theorem savedCategory_rewrites_empty : savedCategory (some "") ≠ "" := by decide

theorem grouped_bucket_mem (ps : List Product) (k : String)
    (items : List Product) (p : Product) (h : (k, items) ∈ grouped ps)
    (hp : p ∈ items) : p ∈ ps := by
  rw [grouped_bucket_eq_filter ps k items h] at hp
  exact (List.mem_filter.mp hp).1

/-- C7 (amended): a product whose category is not one of the fixed known
values is displayed under the catch-all `"Other"` bucket; grouping and
filtering only select existing product records, never altering them; and the
save path preserves every non-empty category string while replacing an
empty/unset category with `"Other"`. -/
theorem category_display_and_preservation :
    (∀ p : Product, (∀ c, p.category = some c → c ∉ categoriesOrder) →
      bucketOf p = "Other") ∧
    (∀ (ps : List Product) (p : Product), p ∈ ps →
      (∀ c, p.category = some c → c ∉ categoriesOrder) →
      ∃ items, ("Other", items) ∈ grouped ps ∧ p ∈ items) ∧
    (∀ (P : List Product) (q : String) (p : Product),
      p ∈ filterProducts P q → p ∈ P) ∧
    (∀ (ps : List Product) (k : String) (items : List Product) (p : Product),
      (k, items) ∈ grouped ps → p ∈ items → p ∈ ps) ∧
    (∀ c : String, c ≠ "" → savedCategory (some c) = c) ∧
    savedCategory none = "Other" ∧ savedCategory (some "") = "Other" := by
  have hbucket : ∀ p : Product,
      (∀ c, p.category = some c → c ∉ categoriesOrder) → bucketOf p = "Other" := by
    intro p hunk
    cases hc : p.category with
    | none => simp [bucketOf, hc]
    | some c => simp [bucketOf, hc, hunk c hc]
  refine ⟨hbucket, ?_, ?_, grouped_bucket_mem, ?_, rfl, rfl⟩
  · intro ps p hp hunk
    refine ⟨ps.filter (fun x => bucketOf x == "Other"), ?_, ?_⟩
    · unfold grouped
      refine List.mem_map.mpr ⟨"Other", ?_, rfl⟩
      have := bucketOf_mem_groupedKeys ps p hp
      rwa [hbucket p hunk] at this
    · exact List.mem_filter.mpr ⟨hp, by rw [hbucket p hunk]; rfl⟩
  · intro P q p hp
    exact (List.mem_filter.mp hp).1
  · intro c hc
    simp [savedCategory, hc]

/-- A product with a category outside the fixed taxonomy. -/
def sampleUnknown : Product := ⟨some "n", none, some "c", some "Custom"⟩

theorem category_display_and_preservation_witness :
    bucketOf sampleUnknown = "Other" ∧ savedCategory (some "Custom") = "Custom" := by
  refine ⟨category_display_and_preservation.1 sampleUnknown ?_,
          category_display_and_preservation.2.2.2.2.1 "Custom" (by decide)⟩
  intro c hc
  have hcc : c = "Custom" := by
    have : (some "Custom" : Option String) = some c := hc
    exact (Option.some.inj this).symm
  rw [hcc]
  decide

/-- A JavaScript value as it can reach `formatPrice` from the `price` column
or form state: a finite number (the store holds integer rupiah amounts),
`NaN`, `±Infinity`, `null`, or `undefined`. -/
inductive JSVal where
  | num (n : Int)
  | nan
  | inf
  | negInf
  | null
  | undef
  deriving DecidableEq

/-- JS `Number(p)` followed by the `Number.isFinite` test: `some n` when the
coercion produces a finite number (`Number(null)` is `0`), `none` otherwise
(`NaN`, `±Infinity`, `undefined`). -/
def toFiniteNumber : JSVal → Option Int
  | .num n => some n
  | .null => some 0
  | _ => none

/-- Digit grouping on a reversed digit list: after every three digits insert
the separator `'.'` (the CLDR thousands separator of the `id-ID` locale). -/
def groupRev : List Char → List Char
  | a :: b :: c :: d :: rest => a :: b :: c :: '.' :: groupRev (d :: rest)
  | l => l

/-- JS `n.toLocaleString('id-ID')` for integral values: decimal digits grouped
in threes with `'.'`, with a leading `'-'` for negatives. -/
def toLocaleStringIdID (n : Int) : String :=
  let digits := (toString n.natAbs).data
  let g := (groupRev digits.reverse).reverse
  if n < 0 then ⟨'-' :: g⟩ else ⟨g⟩

/-- `formatPrice` from App.jsx line 99:
`const n = Number(p); if (!Number.isFinite(n)) return '—';`
`return n.toLocaleString('id-ID');` -/
def formatPrice (v : JSVal) : String :=
  match toFiniteNumber v with
  | none => "—"
  | some n => toLocaleStringIdID n

/-- C8 counterexample: under the `id-ID` locale used at App.jsx line 99,
thousands are grouped with `'.'`, so `formatPrice(1000)` is `"1.000"` and not
the claimed `"1,000"`. -/
theorem formatPrice_locale_counterexample :
    formatPrice (JSVal.num 1000) = "1.000" ∧
    formatPrice (JSVal.num 1000) ≠ "1,000" := by decide

/-- C8 (amended): `formatPrice` is total — every input that does not coerce to
a finite number (NaN, ±Infinity, undefined) yields the placeholder `"—"`,
`Number(null)` coerces to `0` and renders as `"0"`, and finite numbers are
rendered with `id-ID` dot-grouped thousands: `formatPrice(1000) = "1.000"`. -/
theorem formatPrice_amended :
    (∀ v, toFiniteNumber v = none → formatPrice v = "—") ∧
    formatPrice JSVal.nan = "—" ∧
    formatPrice JSVal.inf = "—" ∧
    formatPrice JSVal.negInf = "—" ∧
    formatPrice JSVal.undef = "—" ∧
    formatPrice JSVal.null = "0" ∧
    formatPrice (JSVal.num 1000) = "1.000" ∧
    formatPrice (JSVal.num 1234567) = "1.234.567" ∧
    formatPrice (JSVal.num (-1000)) = "-1.000" := by
  refine ⟨?_, by decide, by decide, by decide, by decide, by decide, by decide,
    by decide, by decide⟩
  intro v h
  unfold formatPrice
  rw [h]

theorem formatPrice_amended_witness : formatPrice JSVal.nan = "—" :=
  formatPrice_amended.1 JSVal.nan (by decide)

/-- `normalizeAffiliate` from App.jsx line 100:
`if (!url) return null; return url.startsWith('http') ? url : 'https://'+url;` -/
def normalizeAffiliate (url : Option String) : Option String :=
  match url with
  | none => none
  | some s =>
    if s = "" then none
    else if jsStartsWith s "http" then some s
    else some ("https://" ++ s)

/-- Spec-side reading of "already starting with a URL scheme": an RFC-style
scheme name (letter, then letters/digits/`+`/`-`/`.`) followed by `"://"` —
the notion C10 contrasts with the code's literal `'http'` test. -/
def specStartsWithURLScheme (s : String) : Bool :=
  let head := s.data.takeWhile
    (fun c => c.isAlpha || c.isDigit || c == '+' || c == '-' || c == '.')
  match s.data with
  | [] => false
  | c :: _ => c.isAlpha && startsWithList (s.data.drop head.length) [':', '/', '/']

/-- C9 counterexample: `"ftp://a.b"` starts with a URL scheme, yet
`normalizeAffiliate` does not return it unchanged — it prepends `https://`
because the code only tests for the literal `'http'`. -/
theorem normalizeAffiliate_scheme_counterexample :
    specStartsWithURLScheme "ftp://a.b" = true ∧
    normalizeAffiliate (some "ftp://a.b") = some "https://ftp://a.b" ∧
    normalizeAffiliate (some "ftp://a.b") ≠ some "ftp://a.b" := by decide

/-- C9 (amended): `normalizeAffiliate` yields `none` for null/empty input,
returns any value starting with the literal prefix `"http"` unchanged (so
`"http://a.b"` is unchanged), and otherwise prepends `"https://"` (so
`"shop.example.com/x"` becomes `"https://shop.example.com/x"`), with no
validation of the result. -/
theorem normalizeAffiliate_amended :
    normalizeAffiliate none = none ∧
    normalizeAffiliate (some "") = none ∧
    normalizeAffiliate (some "http://a.b") = some "http://a.b" ∧
    normalizeAffiliate (some "shop.example.com/x") =
      some "https://shop.example.com/x" ∧
    (∀ s : String, s ≠ "" → jsStartsWith s "http" = true →
      normalizeAffiliate (some s) = some s) ∧
    (∀ s : String, s ≠ "" → jsStartsWith s "http" = false →
      normalizeAffiliate (some s) = some ("https://" ++ s)) := by
  refine ⟨rfl, by decide, by decide, by decide, ?_, ?_⟩
  · intro s hs hstart
    simp [normalizeAffiliate, hs, hstart]
  · intro s hs hstart
    simp [normalizeAffiliate, hs, hstart]

theorem normalizeAffiliate_amended_witness :
    normalizeAffiliate (some "http://a.b") = some "http://a.b" ∧
    normalizeAffiliate (some "a.b") = some ("https://" ++ "a.b") :=
  ⟨normalizeAffiliate_amended.2.2.2.2.1 "http://a.b" (by decide) (by decide),
   normalizeAffiliate_amended.2.2.2.2.2 "a.b" (by decide) (by decide)⟩

/-- C10: the scheme check is a literal prefix test on `"http"`: every
non-empty string beginning with the four characters `"http"` — including
non-URL strings like `"httpmart.com/x"`, which starts with no actual URL
scheme — is returned unchanged. -/
theorem normalizeAffiliate_http_literal :
    (∀ s : String, s ≠ "" → jsStartsWith s "http" = true →
      normalizeAffiliate (some s) = some s) ∧
    normalizeAffiliate (some "httpmart.com/x") = some "httpmart.com/x" ∧
    specStartsWithURLScheme "httpmart.com/x" = false := by
  refine ⟨?_, by decide, by decide⟩
  intro s hs hstart
  simp [normalizeAffiliate, hs, hstart]

theorem normalizeAffiliate_http_literal_witness :
    normalizeAffiliate (some "httpx") = some "httpx" :=
  normalizeAffiliate_http_literal.1 "httpx" (by decide) (by decide)

end Katalogi
